import Mathlib

/-!
Verification of the core behaviour of a portfolio page script: the
toast notification manager, the active-section tracker callback, and
the escapeHtml utility.  The definitions are a shallow embedding of
the JavaScript source: DOM elements are identified by numeric tokens,
the JS Map is an insertion ordered association list, and setTimeout
callbacks are pending (fireTime, id) pairs consumed by an explicit
event step.
-/

namespace Portfolio

/-- A toast DOM element: identity token, displayed text, and the
background style set at creation time. -/
structure Elem where
  tok : Nat
  text : String
  background : String
  deriving DecidableEq

/-- The options object read by showToast.  The source reads the
fields id, type, autoClose and duration; the field durationMs is
carried here so that a caller can pass it, but the source never
reads it. -/
structure ToastOpts where
  id : Option String := none
  type : Option String := none
  autoClose : Option Bool := none
  duration : Option Nat := none
  durationMs : Option Nat := none
  deriving DecidableEq

/-- State of the toast subsystem: the wrapper children in append
order, the _toasts map as an insertion ordered association list from
id to element token, the pending setTimeout callbacks as
(fireTime, id) pairs, the current time, the next fresh element
token, and whether the wrapper element exists. -/
structure ToastState where
  doc : List Elem
  toasts : List (String × Nat)
  timers : List (Nat × String)
  now : Nat
  nextTok : Nat
  wrapper : Bool
  deriving DecidableEq

def initState : ToastState := ⟨[], [], [], 0, 0, false⟩

/-- Map.get on the association list: the binding of the key. -/
def mapGet (id : String) : List (String × Nat) → Option Nat
  | [] => none
  | p :: rest => if p.1 = id then some p.2 else mapGet id rest

/-- Map.has. -/
def mapHas (id : String) (l : List (String × Nat)) : Bool :=
  (mapGet id l).isSome

/-- Map.delete: a JS Map holds at most one binding per key, so
deleting the binding is removing every pair with that key. -/
def mapDelete (id : String) (l : List (String × Nat)) : List (String × Nat) :=
  l.filter (fun p => decide (p.1 ≠ id))

/-- Number of bindings an id has in the registry. -/
def countId (x : String) (l : List (String × Nat)) : Nat :=
  l.countP (fun p => decide (p.1 = x))

/-- The id taken by showToast: opts.id when it is a truthy string,
otherwise the freshly generated random token. -/
def resolveId (o : ToastOpts) (fresh : String) : String :=
  match o.id with
  | some i => if i = "" then fresh else i
  | none => fresh

/-- The delay the source passes to setTimeout: opts.duration OR 3000,
so an absent or zero duration falls back to 3000. -/
def effDuration (o : ToastOpts) : Nat :=
  match o.duration with
  | some d => if d = 0 then 3000 else d
  | none => 3000

def infoBg : String := "linear-gradient(90deg,#00bfff,#7ad6ff)"

def errorBg : String := "linear-gradient(90deg,#ff6b6b,#ff8e8e)"

/-- The background chosen at element creation from opts.type. -/
def bgOf (o : ToastOpts) : String :=
  if o.type = some "error" then errorBg else infoBg

/-- Assignment el.textContent = msg on the element with the given
token. -/
def updText (tok : Nat) (msg : String) (e : Elem) : Elem :=
  if e.tok = tok then { e with text := msg } else e

/-- showToast from the source: resolve the id, ensure the wrapper
exists, then either update the text of the existing element with
that id, or create a new element, register it, and schedule an
auto-close timer unless opts.autoClose is literally false. -/
def showToast (msg : String) (o : ToastOpts) (fresh : String) (s : ToastState) :
    String × ToastState :=
  let id := resolveId o fresh
  let s1 := if s.wrapper then s else { s with wrapper := true }
  match mapGet id s1.toasts with
  | some tok => (id, { s1 with doc := s1.doc.map (updText tok msg) })
  | none =>
      let e : Elem := ⟨s1.nextTok, msg, bgOf o⟩
      let s2 := { s1 with doc := s1.doc ++ [e],
                          toasts := s1.toasts ++ [(id, s1.nextTok)],
                          nextTok := s1.nextTok + 1 }
      let s3 :=
        if o.autoClose = some false then s2
        else { s2 with timers := s2.timers ++ [(s2.now + effDuration o, id)] }
      (id, s3)

/-- removeToast from the source: a falsy id returns at once, a
missing id returns at once, otherwise el.remove() and Map.delete. -/
def removeToast (id : String) (s : ToastState) : ToastState :=
  if id = "" then s
  else
    match mapGet id s.toasts with
    | none => s
    | some tok =>
        { s with doc := s.doc.filter (fun e => decide (e.tok ≠ tok)),
                 toasts := mapDelete id s.toasts }

/-- Remove one pending timer (the one being consumed). -/
def eraseTimer (tm : Nat × String) : List (Nat × String) → List (Nat × String)
  | [] => []
  | x :: xs => if x = tm then xs else x :: eraseTimer tm xs

/-- A due pending setTimeout callback fires: it is consumed and runs
removeToast on the id captured by its closure. -/
def fireTimer (t : Nat) (id : String) (s : ToastState) : ToastState :=
  if (t, id) ∈ s.timers ∧ t ≤ s.now then
    removeToast id { s with timers := eraseTimer (t, id) s.timers }
  else s

/-- The events the single threaded event loop can serve. -/
inductive Ev where
  | showEv (msg : String) (o : ToastOpts) (fresh : String)
  | removeEv (id : String)
  | tickEv (dt : Nat)
  | fireEv (t : Nat) (id : String)
  deriving DecidableEq

def stepEv (e : Ev) (s : ToastState) : ToastState :=
  match e with
  | .showEv m o f => (showToast m o f s).2
  | .removeEv i => removeToast i s
  | .tickEv d => { s with now := s.now + d }
  | .fireEv t i => fireTimer t i s

def runEvents (l : List Ev) (s : ToastState) : ToastState :=
  l.foldl (fun s e => stepEv e s) s

/-- Events in which no caller code runs: time passing and pending
timer callbacks firing. -/
def isPassive : Ev → Bool
  | .tickEv _ => true
  | .fireEv _ _ => true
  | _ => false

/-- One entry handed to the IntersectionObserver callback. -/
structure ObsEntry where
  targetId : String
  isIntersecting : Bool
  intersectionRatio : ℚ
  deriving DecidableEq

/-- A navigation link: its href attribute and whether the active
class is present. -/
structure NavLink where
  href : String
  active : Bool
  deriving DecidableEq

/-- Head of the stable descending sort by intersectionRatio: the
earliest entry among those with maximal ratio. -/
def pickBest (x : ObsEntry) (l : List ObsEntry) : ObsEntry :=
  l.foldl (fun b e => if b.intersectionRatio < e.intersectionRatio then e else b) x

/-- entries.filter(isIntersecting).sort(by descending ratio)[0] -/
def selectVisible (entries : List ObsEntry) : Option ObsEntry :=
  match entries.filter (fun e => e.isIntersecting) with
  | [] => none
  | x :: xs => some (pickBest x xs)

/-- The forEach over links: the links whose href equals the winning
anchor get the active class, every other link loses it. -/
def markLinks (id : String) (links : List NavLink) : List NavLink :=
  links.map (fun l =>
    if l.href = "#" ++ id then { l with active := true }
    else { l with active := false })

/-- The IntersectionObserver callback body. -/
def observerStep (entries : List ObsEntry) (links : List NavLink) : List NavLink :=
  match selectVisible entries with
  | none => links
  | some v => markLinks v.targetId links

def runObserver (steps : List (List ObsEntry)) (links : List NavLink) : List NavLink :=
  steps.foldl (fun ls es => observerStep es ls) links

def countActive (links : List NavLink) : Nat :=
  links.countP (fun l => l.active)

def quoteChar : Char := Char.ofNat 34

def aposChar : Char := Char.ofNat 39

/-- String.replaceAll with a single character pattern. -/
def sub (c : Char) (rep : List Char) : List Char → List Char
  | [] => []
  | x :: xs => (if x = c then rep else [x]) ++ sub c rep xs

/-- The replaceAll chain of escapeHtml, applied in source order. -/
def escapeHtml (l : List Char) : List Char :=
  sub aposChar (String.toList "&#39;")
    (sub quoteChar (String.toList "&quot;")
      (sub '>' (String.toList "&gt;")
        (sub '<' (String.toList "&lt;")
          (sub '&' (String.toList "&amp;") l))))

/-- The whole JS function including the falsy guard: a nullish or
empty input yields the empty string. -/
def escapeHtmlJS : Option (List Char) → List Char
  | none => []
  | some l => if l = [] then [] else escapeHtml l

/-- Per character effect of the whole chain. -/
def escChar (c : Char) : List Char :=
  if c = '&' then String.toList "&amp;"
  else if c = '<' then String.toList "&lt;"
  else if c = '>' then String.toList "&gt;"
  else if c = quoteChar then String.toList "&quot;"
  else if c = aposChar then String.toList "&#39;"
  else [c]

def escAll : List Char → List Char
  | [] => []
  | x :: xs => escChar x ++ escAll xs

/-- Characters that must not survive escaping. -/
def badChar (c : Char) : Bool :=
  c == '<' || c == '>' || c == quoteChar || c == aposChar

def beginsWith : List Char → List Char → Bool
  | [], _ => true
  | _ :: _, [] => false
  | p :: ps, x :: xs => p == x && beginsWith ps xs

/-- After an ampersand, one of the five entity bodies must follow. -/
def entStart (l : List Char) : Bool :=
  beginsWith (String.toList "amp;") l || beginsWith (String.toList "lt;") l ||
  beginsWith (String.toList "gt;") l || beginsWith (String.toList "quot;") l ||
  beginsWith (String.toList "#39;") l

/-- Every ampersand in the list starts an entity. -/
def okAmp : List Char → Bool
  | [] => true
  | c :: cs => (if c = '&' then entStart cs else true) && okAmp cs

/-- The tail of the replaceAll chain: the four replacements that
follow the ampersand replacement, in source order. -/
def tailChain (l : List Char) : List Char :=
  sub aposChar (String.toList "&#39;")
    (sub quoteChar (String.toList "&quot;")
      (sub '>' (String.toList "&gt;")
        (sub '<' (String.toList "&lt;") l)))

lemma wrap_eq (s : ToastState) :
    (if s.wrapper then s else { s with wrapper := true }) = { s with wrapper := true } := by
  obtain ⟨d, t, tm, n, nt, w⟩ := s
  cases w <;> simp

lemma showToast_has (msg : String) (o : ToastOpts) (fresh : String) (s : ToastState) (tok : Nat)
    (h : mapGet (resolveId o fresh) s.toasts = some tok) :
    showToast msg o fresh s =
      (resolveId o fresh, { s with wrapper := true, doc := s.doc.map (updText tok msg) }) := by
  simp only [showToast, wrap_eq]
  simp [h]

lemma showToast_new (msg : String) (o : ToastOpts) (fresh : String) (s : ToastState)
    (h : mapGet (resolveId o fresh) s.toasts = none) :
    showToast msg o fresh s =
      (resolveId o fresh,
        { doc := s.doc ++ [⟨s.nextTok, msg, bgOf o⟩],
          toasts := s.toasts ++ [(resolveId o fresh, s.nextTok)],
          timers := if o.autoClose = some false then s.timers
                    else s.timers ++ [(s.now + effDuration o, resolveId o fresh)],
          now := s.now, nextTok := s.nextTok + 1, wrapper := true }) := by
  simp only [showToast, wrap_eq]
  by_cases hac : o.autoClose = some false <;> simp [h, hac]

lemma mapGet_append_of_none (id : String) (l1 l2 : List (String × Nat))
    (h : mapGet id l1 = none) : mapGet id (l1 ++ l2) = mapGet id l2 := by
  induction l1 with
  | nil => rfl
  | cons p rest ih =>
      by_cases hp : p.1 = id
      · simp [mapGet, hp] at h
      · simp [mapGet, hp] at h ⊢
        exact ih h

lemma mapHas_false_iff (id : String) (l : List (String × Nat)) :
    mapHas id l = false ↔ mapGet id l = none := by
  unfold mapHas
  cases mapGet id l <;> simp

lemma countId_eq_zero_of_none (x : String) (l : List (String × Nat))
    (h : mapGet x l = none) : countId x l = 0 := by
  induction l with
  | nil => rfl
  | cons p rest ih =>
      by_cases hp : p.1 = x
      · simp [mapGet, hp] at h
      · simp [mapGet, hp] at h
        simp [countId, List.countP_cons, hp] at ih ⊢
        exact ih h

lemma countId_append (x : String) (l1 l2 : List (String × Nat)) :
    countId x (l1 ++ l2) = countId x l1 + countId x l2 := by
  simp [countId, List.countP_append]

lemma mapGet_delete_self (id : String) (l : List (String × Nat)) :
    mapGet id (mapDelete id l) = none := by
  induction l with
  | nil => rfl
  | cons p rest ih =>
      by_cases hp : p.1 = id
      · simp [mapDelete, hp] at ih ⊢
        exact ih
      · simp [mapDelete, List.filter_cons, hp, mapGet] at ih ⊢
        exact ih

lemma mapGet_delete_other (i id : String) (l : List (String × Nat)) (h : i ≠ id) :
    mapGet id (mapDelete i l) = mapGet id l := by
  induction l with
  | nil => rfl
  | cons p rest ih =>
      by_cases hp : p.1 = i
      · have hpid : ¬ p.1 = id := by rw [hp]; exact h
        simp [mapDelete, List.filter_cons, hp, mapGet, hpid, h, Ne.symm h] at ih ⊢
        exact ih
      · by_cases hpd : p.1 = id
        · simp [mapDelete, List.filter_cons, hp, mapGet, hpd, h, Ne.symm h]
        · simp [mapDelete, List.filter_cons, hp, mapGet, hpd, h, Ne.symm h] at ih ⊢
          exact ih

lemma removeToast_of_none (id : String) (s : ToastState)
    (h : mapGet id s.toasts = none) : removeToast id s = s := by
  unfold removeToast
  by_cases hid : id = "" <;> simp [hid, h]

lemma removeToast_timers (id : String) (s : ToastState) :
    (removeToast id s).timers = s.timers := by
  unfold removeToast
  by_cases hid : id = ""
  · simp [hid]
  · simp only [hid, if_false]
    cases mapGet id s.toasts <;> rfl

lemma removeToast_get_other (i id : String) (s : ToastState) (h : i ≠ id) :
    mapGet id (removeToast i s).toasts = mapGet id s.toasts := by
  unfold removeToast
  by_cases hid : i = ""
  · simp [hid]
  · simp only [hid, if_false]
    cases hg : mapGet i s.toasts with
    | none => rfl
    | some tok => simp [mapGet_delete_other i id s.toasts h]

lemma mem_eraseTimer (a tm : Nat × String) (l : List (Nat × String))
    (h : a ∈ eraseTimer tm l) : a ∈ l := by
  induction l with
  | nil => cases h
  | cons x xs ih =>
      by_cases hx : x = tm
      · simp [eraseTimer, hx] at h
        exact List.mem_cons_of_mem x h
      · simp [eraseTimer, hx] at h
        rcases h with h | h
        · exact h ▸ List.mem_cons_self x xs
        · exact List.mem_cons_of_mem x (ih h)

lemma fireTimer_noop (t : Nat) (id : String) (s : ToastState)
    (h : mapGet id s.toasts = none) :
    (fireTimer t id s).toasts = s.toasts ∧ (fireTimer t id s).doc = s.doc := by
  unfold fireTimer
  split
  · rw [removeToast_of_none]
    · exact ⟨rfl, rfl⟩
    · exact h
  · exact ⟨rfl, rfl⟩

lemma passive_step (e : Ev) (id : String) (s : ToastState)
    (hp : isPassive e = true) (hno : ∀ t, (t, id) ∉ s.timers) :
    mapGet id (stepEv e s).toasts = mapGet id s.toasts ∧
    ∀ t, (t, id) ∉ (stepEv e s).timers := by
  cases e with
  | showEv m o f => simp [isPassive] at hp
  | removeEv i => simp [isPassive] at hp
  | tickEv d => exact ⟨rfl, hno⟩
  | fireEv t i =>
      simp only [stepEv]
      unfold fireTimer
      split
      case isTrue hcond =>
        have hne : i ≠ id := by
          intro he
          exact hno t (he ▸ hcond.1)
        constructor
        · rw [removeToast_get_other i id _ hne]
        · intro t2 hmem
          rw [removeToast_timers] at hmem
          exact hno t2 (mem_eraseTimer _ _ _ hmem)
      case isFalse hcond => exact ⟨rfl, hno⟩

lemma passive_run (evs : List Ev) (id : String) :
    ∀ s : ToastState, (∀ e ∈ evs, isPassive e = true) → (∀ t, (t, id) ∉ s.timers) →
    mapGet id (runEvents evs s).toasts = mapGet id s.toasts := by
  induction evs with
  | nil => intro s _ _; rfl
  | cons e rest ih =>
      intro s hall hno
      have h1 := passive_step e id s (hall e (List.mem_cons_self e rest)) hno
      have h2 := ih (stepEv e s) (fun x hx => hall x (List.mem_cons_of_mem e hx)) h1.2
      show mapGet id (runEvents rest (stepEv e s)).toasts = mapGet id s.toasts
      rw [h2, h1.1]

lemma map_updText_of_ne (tok : Nat) (msg : String) (d : List Elem)
    (h : ∀ e ∈ d, e.tok ≠ tok) : d.map (updText tok msg) = d := by
  induction d with
  | nil => rfl
  | cons a rest ih =>
      have ha : updText tok msg a = a := by
        unfold updText
        simp [h a (List.mem_cons_self a rest)]
      simp only [List.map_cons, ha]
      rw [ih (fun e he => h e (List.mem_cons_of_mem a he))]

lemma removeToast_idem (id : String) (s : ToastState) :
    removeToast id (removeToast id s) = removeToast id s := by
  by_cases hid : id = ""
  · unfold removeToast
    simp [hid]
  · cases hg : mapGet id s.toasts with
    | none => rw [removeToast_of_none id s hg, removeToast_of_none id s hg]
    | some tok =>
        apply removeToast_of_none
        have : (removeToast id s).toasts = mapDelete id s.toasts := by
          unfold removeToast
          simp [hid, hg]
        rw [this]
        exact mapGet_delete_self id s.toasts

lemma pickBest_cons (x a : ObsEntry) (l : List ObsEntry) :
    pickBest x (a :: l) =
    pickBest (if x.intersectionRatio < a.intersectionRatio then a else x) l := rfl

lemma pickBest_mem : ∀ (l : List ObsEntry) (x : ObsEntry),
    pickBest x l = x ∨ pickBest x l ∈ l
  | [], _ => Or.inl rfl
  | a :: l, x => by
      rw [pickBest_cons]
      rcases pickBest_mem l (if x.intersectionRatio < a.intersectionRatio then a else x) with h | h
      · rw [h]
        by_cases hc : x.intersectionRatio < a.intersectionRatio
        · rw [if_pos hc]
          exact Or.inr (List.mem_cons_self a l)
        · rw [if_neg hc]
          exact Or.inl rfl
      · exact Or.inr (List.mem_cons_of_mem a h)

lemma pickBest_ge : ∀ (l : List ObsEntry) (x : ObsEntry),
    x.intersectionRatio ≤ (pickBest x l).intersectionRatio ∧
    ∀ y ∈ l, y.intersectionRatio ≤ (pickBest x l).intersectionRatio
  | [], x => ⟨le_refl _, by simp⟩
  | a :: l, x => by
      rw [pickBest_cons]
      have ih := pickBest_ge l (if x.intersectionRatio < a.intersectionRatio then a else x)
      constructor
      · by_cases hc : x.intersectionRatio < a.intersectionRatio
        · rw [if_pos hc] at ih ⊢
          exact le_trans (le_of_lt hc) ih.1
        · rw [if_neg hc] at ih ⊢
          exact ih.1
      · intro y hy
        rcases List.mem_cons.mp hy with rfl | hy2
        · by_cases hc : x.intersectionRatio < y.intersectionRatio
          · rw [if_pos hc] at ih ⊢
            exact ih.1
          · rw [if_neg hc] at ih ⊢
            exact le_trans (not_lt.mp hc) ih.1
        · exact ih.2 y hy2

lemma selectVisible_strict (entries : List ObsEntry) (e : ObsEntry)
    (he : e ∈ entries) (hi : e.isIntersecting = true)
    (hmax : ∀ f ∈ entries, f.isIntersecting = true → f ≠ e →
      f.intersectionRatio < e.intersectionRatio) :
    selectVisible entries = some e := by
  have hef : e ∈ entries.filter (fun x => x.isIntersecting) :=
    List.mem_filter.mpr ⟨he, hi⟩
  unfold selectVisible
  cases hfe : entries.filter (fun x => x.isIntersecting) with
  | nil =>
      rw [hfe] at hef
      cases hef
  | cons x xs =>
      rw [hfe] at hef
      have hbmem : pickBest x xs = x ∨ pickBest x xs ∈ xs := pickBest_mem xs x
      have hbfil : pickBest x xs ∈ entries.filter (fun x => x.isIntersecting) := by
        rw [hfe]
        rcases hbmem with h | h
        · rw [h]; exact List.mem_cons_self x xs
        · exact List.mem_cons_of_mem x h
      have hble : e.intersectionRatio ≤ (pickBest x xs).intersectionRatio := by
        rcases List.mem_cons.mp hef with rfl | h
        · exact (pickBest_ge xs e).1
        · exact (pickBest_ge xs x).2 e h
      have hfprop := List.mem_filter.mp hbfil
      by_cases hbe : pickBest x xs = e
      · simp [hbe]
      · have hlt := hmax _ hfprop.1 hfprop.2 hbe
        exact absurd hble (not_le.mpr hlt)

lemma selectVisible_none (entries : List ObsEntry)
    (h : ∀ e ∈ entries, e.isIntersecting = false) : selectVisible entries = none := by
  have : entries.filter (fun e => e.isIntersecting) = [] := by
    rw [List.filter_eq_nil_iff]
    intro a ha
    simp [h a ha]
  unfold selectVisible
  rw [this]

lemma markLinks_active_map (id : String) (links : List NavLink) :
    (markLinks id links).map (fun l => l.active) =
    links.map (fun l => decide (l.href = "#" ++ id)) := by
  induction links with
  | nil => rfl
  | cons a l ih =>
      simp only [markLinks, List.map_cons] at ih ⊢
      by_cases h : a.href = "#" ++ id <;> simp [h, ih]

lemma markLinks_hrefs (id : String) (links : List NavLink) :
    (markLinks id links).map (fun l => l.href) = links.map (fun l => l.href) := by
  induction links with
  | nil => rfl
  | cons a l ih =>
      simp only [markLinks, List.map_cons] at ih ⊢
      by_cases h : a.href = "#" ++ id <;> simp [h, ih]

lemma countActive_markLinks (id : String) (links : List NavLink) :
    countActive (markLinks id links) =
    links.countP (fun l => decide (l.href = "#" ++ id)) := by
  induction links with
  | nil => rfl
  | cons a l ih =>
      simp only [markLinks, countActive, List.map_cons, List.countP_cons] at ih ⊢
      by_cases h : a.href = "#" ++ id <;> simp [h, ih]

lemma countP_href_le_one (t : String) (links : List NavLink)
    (hnd : (links.map (fun l => l.href)).Nodup) :
    links.countP (fun l => decide (l.href = t)) ≤ 1 := by
  induction links with
  | nil => exact Nat.zero_le 1
  | cons a l ih =>
      simp only [List.map_cons, List.nodup_cons] at hnd
      rw [List.countP_cons]
      by_cases h : a.href = t
      · have hz : l.countP (fun x => decide (x.href = t)) = 0 := by
          rw [List.countP_eq_zero]
          intro b hb
          simp only [decide_eq_true_eq]
          intro hbt
          exact hnd.1 (by rw [← h] at hbt; exact hbt ▸ List.mem_map_of_mem (fun x => x.href) hb)
        simp [h, hz]
      · simp [h, ih hnd.2]

lemma countP_href_eq_one (t : String) (links : List NavLink)
    (hnd : (links.map (fun l => l.href)).Nodup)
    (hmem : t ∈ links.map (fun l => l.href)) :
    links.countP (fun l => decide (l.href = t)) = 1 := by
  induction links with
  | nil => cases hmem
  | cons a l ih =>
      simp only [List.map_cons, List.nodup_cons] at hnd
      rw [List.countP_cons]
      by_cases h : a.href = t
      · have hz : l.countP (fun x => decide (x.href = t)) = 0 := by
          rw [List.countP_eq_zero]
          intro b hb
          simp only [decide_eq_true_eq]
          intro hbt
          exact hnd.1 (by rw [← h] at hbt; exact hbt ▸ List.mem_map_of_mem (fun x => x.href) hb)
        simp [h, hz]
      · rcases List.mem_cons.mp hmem with rfl | hm2
        · exact absurd rfl h
        · simp [h, ih hnd.2 hm2]

lemma observerStep_hrefs (es : List ObsEntry) (ls : List NavLink) :
    (observerStep es ls).map (fun l => l.href) = ls.map (fun l => l.href) := by
  unfold observerStep
  cases selectVisible es with
  | none => rfl
  | some v => exact markLinks_hrefs v.targetId ls

lemma observerStep_count_le (es : List ObsEntry) (ls : List NavLink)
    (hnd : (ls.map (fun l => l.href)).Nodup) (h : countActive ls ≤ 1) :
    countActive (observerStep es ls) ≤ 1 := by
  unfold observerStep
  cases selectVisible es with
  | none => exact h
  | some v =>
      rw [countActive_markLinks]
      exact countP_href_le_one _ ls hnd

lemma runObserver_count_le (steps : List (List ObsEntry)) :
    ∀ ls : List NavLink, (ls.map (fun l => l.href)).Nodup → countActive ls ≤ 1 →
    countActive (runObserver steps ls) ≤ 1 := by
  induction steps with
  | nil => intro ls _ h; exact h
  | cons es rest ih =>
      intro ls hnd h
      show countActive (runObserver rest (observerStep es ls)) ≤ 1
      exact ih (observerStep es ls) (by rw [observerStep_hrefs]; exact hnd)
        (observerStep_count_le es ls hnd h)

lemma sub_append (c : Char) (rep l1 l2 : List Char) :
    sub c rep (l1 ++ l2) = sub c rep l1 ++ sub c rep l2 := by
  induction l1 with
  | nil => rfl
  | cons x xs ih => simp [sub, ih]

lemma tailChain_append (l1 l2 : List Char) :
    tailChain (l1 ++ l2) = tailChain l1 ++ tailChain l2 := by
  simp [tailChain, sub_append]

lemma escapeHtml_eq_tail (l : List Char) :
    escapeHtml l = tailChain (sub '&' (String.toList "&amp;") l) := rfl

lemma escapeHtml_cons (x : Char) (xs : List Char) :
    escapeHtml (x :: xs) = escChar x ++ escapeHtml xs := by
  rw [escapeHtml_eq_tail, escapeHtml_eq_tail]
  have hsub : sub '&' (String.toList "&amp;") (x :: xs) =
      (if x = '&' then String.toList "&amp;" else [x]) ++
        sub '&' (String.toList "&amp;") xs := rfl
  rw [hsub, tailChain_append]
  congr 1
  by_cases h1 : x = '&'
  · subst h1
    decide
  · rw [if_neg h1]
    by_cases h2 : x = '<'
    · subst h2; decide
    · by_cases h3 : x = '>'
      · subst h3; decide
      · by_cases h4 : x = quoteChar
        · subst h4; decide
        · by_cases h5 : x = aposChar
          · subst h5; decide
          · simp [tailChain, sub, escChar, h1, h2, h3, h4, h5]

lemma escapeHtml_eq_escAll : ∀ l : List Char, escapeHtml l = escAll l
  | [] => rfl
  | x :: xs => by
      rw [escapeHtml_cons, escapeHtml_eq_escAll xs]
      rfl

lemma badChar_escChar (x : Char) :
    (escChar x).all (fun c => !badChar c) = true := by
  by_cases h1 : x = '&'
  · subst h1; decide
  · by_cases h2 : x = '<'
    · subst h2; decide
    · by_cases h3 : x = '>'
      · subst h3; decide
      · by_cases h4 : x = quoteChar
        · subst h4; decide
        · by_cases h5 : x = aposChar
          · subst h5; decide
          · simp [escChar, h1, h2, h3, h4, h5, badChar]

lemma escAll_all_good : ∀ l : List Char,
    (escAll l).all (fun c => !badChar c) = true
  | [] => rfl
  | x :: xs => by
      show ((escChar x ++ escAll xs).all (fun c => !badChar c)) = true
      rw [List.all_append]
      rw [badChar_escChar x, escAll_all_good xs]
      rfl

lemma okAmp_escChar_append (x : Char) (l : List Char) (h : okAmp l = true) :
    okAmp (escChar x ++ l) = true := by
  by_cases h1 : x = '&'
  · subst h1
    simp only [escChar, if_pos rfl]
    simp [okAmp, entStart, beginsWith, h]
  · by_cases h2 : x = '<'
    · subst h2
      simp only [escChar]
      simp [okAmp, entStart, beginsWith, h]
    · by_cases h3 : x = '>'
      · subst h3
        simp only [escChar]
        simp [okAmp, entStart, beginsWith, h]
      · by_cases h4 : x = quoteChar
        · subst h4
          simp only [escChar]
          simp [okAmp, entStart, beginsWith, h]
        · by_cases h5 : x = aposChar
          · subst h5
            simp only [escChar]
            simp [okAmp, entStart, beginsWith, h]
          · simp [escChar, h1, h2, h3, h4, h5, okAmp, h]

lemma okAmp_escAll : ∀ l : List Char, okAmp (escAll l) = true
  | [] => rfl
  | x :: xs => okAmp_escChar_append x (escAll xs) (okAmp_escAll xs)

/-- Claim C1: a show call whose id already names an existing entry
returns the same id, leaves the registry, the pending timers and the
element count unchanged (so no new visual element and no new
auto-close timer arise from the call), and two successive shows with
the same id leave exactly one registry entry for that id whose
element displays the second message. -/
theorem toast_update_in_place :
    (∀ (msg : String) (o : ToastOpts) (x fresh : String) (s : ToastState),
      o.id = some x → x ≠ "" → mapHas x s.toasts = true →
      (showToast msg o fresh s).1 = x ∧
      (showToast msg o fresh s).2.toasts = s.toasts ∧
      (showToast msg o fresh s).2.timers = s.timers ∧
      (showToast msg o fresh s).2.nextTok = s.nextTok ∧
      (showToast msg o fresh s).2.doc.length = s.doc.length) ∧
    (∀ (m1 m2 : String) (o1 o2 : ToastOpts) (x f1 f2 : String) (s : ToastState),
      o1.id = some x → o2.id = some x → x ≠ "" → mapHas x s.toasts = false →
      (∀ e ∈ s.doc, e.tok < s.nextTok) →
      countId x (showToast m2 o2 f2 (showToast m1 o1 f1 s).2).2.toasts = 1 ∧
      (showToast m2 o2 f2 (showToast m1 o1 f1 s).2).2.toasts = s.toasts ++ [(x, s.nextTok)] ∧
      (showToast m2 o2 f2 (showToast m1 o1 f1 s).2).2.doc = s.doc ++ [⟨s.nextTok, m2, bgOf o1⟩]) := by
  constructor
  · intro msg o x fresh s hid hx hhas
    have hres : resolveId o fresh = x := by simp [resolveId, hid, hx]
    obtain ⟨tok, htok⟩ := Option.isSome_iff_exists.mp hhas
    have h2 : mapGet (resolveId o fresh) s.toasts = some tok := by rw [hres]; exact htok
    rw [showToast_has msg o fresh s tok h2]
    exact ⟨hres, rfl, rfl, rfl, by simp⟩
  · intro m1 m2 o1 o2 x f1 f2 s h1 h2 hx hhas hwf
    have hres1 : resolveId o1 f1 = x := by simp [resolveId, h1, hx]
    have hres2 : resolveId o2 f2 = x := by simp [resolveId, h2, hx]
    have hnone : mapGet x s.toasts = none := (mapHas_false_iff x s.toasts).mp hhas
    have hget1 : mapGet (resolveId o1 f1) s.toasts = none := by rw [hres1]; exact hnone
    rw [showToast_new m1 o1 f1 s hget1, hres1]
    have hget2 : mapGet (resolveId o2 f2)
        (ToastState.mk (s.doc ++ [⟨s.nextTok, m1, bgOf o1⟩]) (s.toasts ++ [(x, s.nextTok)])
          (if o1.autoClose = some false then s.timers
           else s.timers ++ [(s.now + effDuration o1, x)]) s.now (s.nextTok + 1) true).toasts =
        some s.nextTok := by
      rw [hres2]
      show mapGet x (s.toasts ++ [(x, s.nextTok)]) = some s.nextTok
      rw [mapGet_append_of_none x _ _ hnone]
      simp [mapGet]
    rw [showToast_has m2 o2 f2 _ s.nextTok hget2]
    refine ⟨?_, rfl, ?_⟩
    · show countId x (s.toasts ++ [(x, s.nextTok)]) = 1
      rw [countId_append, countId_eq_zero_of_none x s.toasts hnone]
      simp [countId, List.countP_cons]
    · show (s.doc ++ [(⟨s.nextTok, m1, bgOf o1⟩ : Elem)]).map (updText s.nextTok m2) =
        s.doc ++ [(⟨s.nextTok, m2, bgOf o1⟩ : Elem)]
      rw [List.map_append]
      rw [map_updText_of_ne s.nextTok m2 s.doc (fun e he => Nat.ne_of_lt (hwf e he))]
      simp [updText]

/-- Claim C1 witness: both parts applied at concrete inputs. -/
theorem toast_update_in_place_witness :
    (showToast "b" ⟨some "x", none, none, none, none⟩ "f"
      ⟨[⟨0, "a", infoBg⟩], [("x", 0)], [(3000, "x")], 0, 1, true⟩).2.toasts = [("x", 0)] ∧
    countId "x" (showToast "m2" ⟨some "x", none, none, none, none⟩ "g"
      (showToast "m1" ⟨some "x", none, none, none, none⟩ "f" initState).2).2.toasts = 1 := by
  constructor
  · exact (toast_update_in_place.1 "b" ⟨some "x", none, none, none, none⟩ "x" "f"
      ⟨[⟨0, "a", infoBg⟩], [("x", 0)], [(3000, "x")], 0, 1, true⟩ rfl (by decide) (by decide)).2.1
  · exact (toast_update_in_place.2 "m1" "m2" ⟨some "x", none, none, none, none⟩
      ⟨some "x", none, none, none, none⟩ "x" "f" "g" initState rfl rfl (by decide) (by decide)
      (by decide)).1

/-- Claim C2 counterexample: after show of id x, remove of x, and a
new show of x with autoClose false, the stale timer scheduled by the
first show still fires and deletes the new entry, so a later-firing
timer for a removed id is not always without effect when a new entry
with the same id exists. -/
theorem stale_timer_hits_new_entry :
    (runEvents [Ev.showEv "a" ⟨some "x", none, none, none, none⟩ "f1", Ev.removeEv "x",
      Ev.showEv "b" ⟨some "x", none, some false, none, none⟩ "f2"] initState).toasts =
      [("x", 1)] ∧
    (runEvents [Ev.showEv "a" ⟨some "x", none, none, none, none⟩ "f1", Ev.removeEv "x",
      Ev.showEv "b" ⟨some "x", none, some false, none, none⟩ "f2", Ev.tickEv 3000,
      Ev.fireEv 3000 "x"] initState).toasts = [] ∧
    (runEvents [Ev.showEv "a" ⟨some "x", none, none, none, none⟩ "f1", Ev.removeEv "x",
      Ev.showEv "b" ⟨some "x", none, some false, none, none⟩ "f2", Ev.tickEv 3000,
      Ev.fireEv 3000 "x"] initState).doc = [] := by decide

/-- Claim C2 amended: a firing auto-close timer has no effect on the
registry or the document exactly when no entry with its id exists at
the moment it fires; the guard re-checks existence by id only, so
after remove(id) the firing is harmless until a new entry with the
same id is created. -/
theorem timer_guard_requires_absence (t : Nat) (id : String) (s : ToastState)
    (h : mapHas id s.toasts = false) :
    (fireTimer t id s).toasts = s.toasts ∧ (fireTimer t id s).doc = s.doc :=
  fireTimer_noop t id s ((mapHas_false_iff id s.toasts).mp h)

/-- Claim C2 witness: the amended theorem applied to a state with a
due timer and no entry for its id. -/
theorem timer_guard_requires_absence_witness :
    (fireTimer 3000 "x" ⟨[], [], [(3000, "x")], 3000, 0, true⟩).toasts = [] ∧
    (fireTimer 3000 "x" ⟨[], [], [(3000, "x")], 3000, 0, true⟩).doc = [] :=
  timer_guard_requires_absence 3000 "x" ⟨[], [], [(3000, "x")], 3000, 0, true⟩ (by decide)

/-- Claim C3 counterexample: a show call that passes 100 in the
option named durationMs gets a timer scheduled 3000 time units ahead,
not 100, because the source reads the option named duration. -/
theorem durationMs_option_ignored :
    (showToast "m" ⟨some "x", none, none, none, some 100⟩ "f" initState).2.timers =
      [(3000, "x")] ∧ ((3000 : Nat), "x") ≠ ((100 : Nat), "x") := by decide

/-- Claim C3 amended: a show call that creates a new entry and does
not pass autoClose false schedules exactly one timer for that id,
due after the value of the option named duration when that value is
a nonzero integer and after 3000 otherwise; the option named
durationMs is ignored. -/
theorem autoclose_timer_schedule (msg : String) (o : ToastOpts) (x fresh : String)
    (s : ToastState) (hid : o.id = some x) (hx : x ≠ "")
    (hnew : mapHas x s.toasts = false) (hac : o.autoClose ≠ some false) :
    (showToast msg o fresh s).2.timers = s.timers ++ [(s.now + effDuration o, x)] ∧
    (o.duration = none → effDuration o = 3000) ∧
    (∀ d : Nat, o.duration = some d → d ≠ 0 → effDuration o = d) ∧
    (∀ dm : Option Nat, effDuration { o with durationMs := dm } = effDuration o) := by
  have hres : resolveId o fresh = x := by simp [resolveId, hid, hx]
  have hnone : mapGet (resolveId o fresh) s.toasts = none := by
    rw [hres]
    exact (mapHas_false_iff x s.toasts).mp hnew
  rw [showToast_new msg o fresh s hnone, hres]
  refine ⟨?_, ?_, ?_, ?_⟩
  · show (if o.autoClose = some false then s.timers
      else s.timers ++ [(s.now + effDuration o, x)]) = s.timers ++ [(s.now + effDuration o, x)]
    rw [if_neg hac]
  · intro h; simp [effDuration, h]
  · intro d hd hdz; simp [effDuration, hd, hdz]
  · intro dm; simp [effDuration]

/-- Claim C3 witness: the amended theorem applied to a show call
with duration 250. -/
theorem autoclose_timer_schedule_witness :
    (showToast "m" ⟨some "x", none, none, some 250, none⟩ "f" initState).2.timers =
      [(0 + 250, "x")] ∧ effDuration ⟨some "x", none, none, some 250, none⟩ = 250 := by
  have h := autoclose_timer_schedule "m" ⟨some "x", none, none, some 250, none⟩ "x" "f"
    initState rfl (by decide) (by decide) (by decide)
  refine ⟨?_, h.2.2.1 250 rfl (by decide)⟩
  rw [h.1]
  show ([] : List (Nat × String)) ++ [(0 + effDuration ⟨some "x", none, none, some 250, none⟩, "x")] = [(0 + 250, "x")]
  rw [h.2.2.1 250 rfl (by decide)]
  rfl

/-- Claim C7: removing an id that is not in the registry is a no-op
that leaves the whole state unchanged, and removal is idempotent. -/
theorem remove_missing_noop :
    (∀ (id : String) (s : ToastState), mapHas id s.toasts = false → removeToast id s = s) ∧
    (∀ (id : String) (s : ToastState), removeToast id (removeToast id s) = removeToast id s) :=
  ⟨fun id s h => removeToast_of_none id s ((mapHas_false_iff id s.toasts).mp h),
   fun id s => removeToast_idem id s⟩

/-- Claim C7 witness: removing a missing id from the initial state. -/
theorem remove_missing_noop_witness : removeToast "x" initState = initState :=
  remove_missing_noop.1 "x" initState (by decide)

/-- Claim C8 counterexample: an entry created with autoClose false
is deleted by a stale timer left over from an earlier entry with the
same id, although the events after its creation are only time
passing and timer firings, with no remove call. -/
theorem autoclose_false_removed_by_stale_timer :
    (runEvents [Ev.showEv "w" ⟨some "x", none, none, some 100, none⟩ "g1", Ev.removeEv "x",
      Ev.showEv "keep" ⟨some "x", none, some false, none, none⟩ "g2"] initState).toasts =
      [("x", 1)] ∧
    (runEvents [Ev.showEv "w" ⟨some "x", none, none, some 100, none⟩ "g1", Ev.removeEv "x",
      Ev.showEv "keep" ⟨some "x", none, some false, none, none⟩ "g2", Ev.tickEv 100,
      Ev.fireEv 100 "x"] initState).toasts = [] ∧
    (∀ e ∈ [Ev.tickEv 100, Ev.fireEv 100 "x"], isPassive e = true) := by decide

/-- Claim C8 amended: a show call with autoClose false schedules no
timer of its own, and an entry whose id has no pending timer at all
survives every sequence of time passing and timer firing events
unchanged in the registry. -/
theorem autoclose_false_no_timer_and_survival :
    (∀ (msg : String) (o : ToastOpts) (fresh : String) (s : ToastState),
      o.autoClose = some false → (showToast msg o fresh s).2.timers = s.timers) ∧
    (∀ (evs : List Ev) (id : String) (s : ToastState),
      (∀ e ∈ evs, isPassive e = true) → (∀ t, (t, id) ∉ s.timers) →
      mapGet id (runEvents evs s).toasts = mapGet id s.toasts) := by
  constructor
  · intro msg o fresh s hac
    cases hg : mapGet (resolveId o fresh) s.toasts with
    | some tok => rw [showToast_has msg o fresh s tok hg]
    | none =>
        rw [showToast_new msg o fresh s hg]
        show (if o.autoClose = some false then s.timers else _) = s.timers
        rw [if_pos hac]
  · intro evs id s hall hno
    exact passive_run evs id s hall hno

/-- Claim C8 witness: both parts applied at concrete inputs. -/
theorem autoclose_false_no_timer_and_survival_witness :
    (showToast "keep" ⟨some "x", none, some false, none, none⟩ "f" initState).2.timers = [] ∧
    mapGet "x" (runEvents [Ev.tickEv 5000, Ev.fireEv 900 "y"]
      ⟨[⟨0, "keep", infoBg⟩], [("x", 0)], [(900, "y")], 0, 1, true⟩).toasts = some 0 := by
  constructor
  · exact autoclose_false_no_timer_and_survival.1 "keep"
      ⟨some "x", none, some false, none, none⟩ "f" initState rfl
  · have h := autoclose_false_no_timer_and_survival.2 [Ev.tickEv 5000, Ev.fireEv 900 "y"] "x"
      ⟨[⟨0, "keep", infoBg⟩], [("x", 0)], [(900, "y")], 0, 1, true⟩ (by decide)
      (fun t ht => by simp at ht)
    rw [h]
    decide

/-- Claim C10: a show call that hits an existing id changes only the
text of its element: the registry, the pending timers, the element
identities and the backgrounds chosen at creation are all unchanged,
whatever options the updating call passes. -/
theorem update_preserves_style_and_timers (msg : String) (o : ToastOpts) (x fresh : String)
    (s : ToastState) (tok : Nat) (hid : o.id = some x) (hx : x ≠ "")
    (hget : mapGet x s.toasts = some tok) :
    (showToast msg o fresh s).2.toasts = s.toasts ∧
    (showToast msg o fresh s).2.timers = s.timers ∧
    (showToast msg o fresh s).2.doc = s.doc.map (updText tok msg) ∧
    (showToast msg o fresh s).2.doc.map (fun e => e.background) =
      s.doc.map (fun e => e.background) ∧
    (showToast msg o fresh s).2.doc.map (fun e => e.tok) = s.doc.map (fun e => e.tok) := by
  have hres : mapGet (resolveId o fresh) s.toasts = some tok := by
    simp [resolveId, hid, hx]
    exact hget
  rw [showToast_has msg o fresh s tok hres]
  refine ⟨rfl, rfl, rfl, ?_, ?_⟩
  · show (s.doc.map (updText tok msg)).map (fun e => e.background) =
      s.doc.map (fun e => e.background)
    rw [List.map_map]
    congr 1
    funext e
    show (updText tok msg e).background = e.background
    unfold updText
    split <;> rfl
  · show (s.doc.map (updText tok msg)).map (fun e => e.tok) = s.doc.map (fun e => e.tok)
    rw [List.map_map]
    congr 1
    funext e
    show (updText tok msg e).tok = e.tok
    unfold updText
    split <;> rfl

/-- Claim C10 witness: an update passing type error and autoClose
false changes neither the background nor the pending timer. -/
theorem update_preserves_style_and_timers_witness :
    (showToast "upd" ⟨some "x", some "error", some false, none, none⟩ "f"
      ⟨[⟨0, "old", infoBg⟩], [("x", 0)], [(3000, "x")], 0, 1, true⟩).2.timers =
      [(3000, "x")] ∧
    (showToast "upd" ⟨some "x", some "error", some false, none, none⟩ "f"
      ⟨[⟨0, "old", infoBg⟩], [("x", 0)], [(3000, "x")], 0, 1, true⟩).2.doc.map
      (fun e => e.background) = [infoBg] := by
  have h := update_preserves_style_and_timers "upd" ⟨some "x", some "error", some false, none, none⟩
    "x" "f" ⟨[⟨0, "old", infoBg⟩], [("x", 0)], [(3000, "x")], 0, 1, true⟩ 0 rfl (by decide)
    (by decide)
  exact ⟨h.2.1, h.2.2.2.1⟩

/-- Claim C4: when an intersecting entry has strictly the highest
intersection ratio among the intersecting entries of an observation
step, that entry is selected, the links whose href names it become
active and every other link becomes inactive. -/
theorem most_visible_selected (entries : List ObsEntry) (links : List NavLink) (e : ObsEntry)
    (he : e ∈ entries) (hi : e.isIntersecting = true)
    (hmax : ∀ f ∈ entries, f.isIntersecting = true → f ≠ e →
      f.intersectionRatio < e.intersectionRatio) :
    observerStep entries links = markLinks e.targetId links ∧
    (observerStep entries links).map (fun l => l.active) =
      links.map (fun l => decide (l.href = "#" ++ e.targetId)) := by
  have hsel : selectVisible entries = some e := selectVisible_strict entries e he hi hmax
  unfold observerStep
  rw [hsel]
  exact ⟨rfl, markLinks_active_map e.targetId links⟩

/-- Claim C4 witness: with sections a, b, c of which only b
intersects, the link of b ends active and the links of a and c end
inactive. -/
theorem most_visible_selected_witness :
    (observerStep [⟨"a", false, 0⟩, ⟨"b", true, 1⟩, ⟨"c", false, 0⟩]
      [⟨"#a", true⟩, ⟨"#b", false⟩, ⟨"#c", false⟩]).map (fun l => l.active) =
      [false, true, false] := by
  have h := (most_visible_selected [⟨"a", false, 0⟩, ⟨"b", true, 1⟩, ⟨"c", false, 0⟩]
    [⟨"#a", true⟩, ⟨"#b", false⟩, ⟨"#c", false⟩] ⟨"b", true, 1⟩ (by decide) (by decide)
    (by decide)).2
  rw [h]
  decide

/-- Claim C5: an observation step in which no entry intersects
leaves every link exactly as it was, so the previously active link
stays active. -/
theorem no_intersection_keeps_links (entries : List ObsEntry) (links : List NavLink)
    (h : ∀ e ∈ entries, e.isIntersecting = false) :
    observerStep entries links = links := by
  unfold observerStep
  rw [selectVisible_none entries h]

/-- Claim C5 witness: a step with two non-intersecting entries
leaves the active link of section a in place. -/
theorem no_intersection_keeps_links_witness :
    observerStep [⟨"a", false, 1⟩, ⟨"b", false, 0⟩] [⟨"#a", true⟩, ⟨"#b", false⟩] =
      [⟨"#a", true⟩, ⟨"#b", false⟩] :=
  no_intersection_keeps_links _ _ (by decide)

/-- Claim C6 counterexample: when two nav links share the href of
the winning section, one observation step marks both of them active,
so more than one link can carry the active marking. -/
theorem shared_href_two_active :
    countActive (observerStep [⟨"a", true, 1⟩] [⟨"#a", false⟩, ⟨"#a", false⟩]) = 2 := by
  decide

/-- Claim C6 amended: when the nav links have pairwise distinct
href values, any run of observation steps keeps at most one link
active, and a step that selects a section whose anchor is among the
link hrefs leaves exactly one link active. -/
theorem at_most_one_active_distinct_hrefs :
    (∀ (steps : List (List ObsEntry)) (links : List NavLink),
      (links.map (fun l => l.href)).Nodup → countActive links ≤ 1 →
      countActive (runObserver steps links) ≤ 1) ∧
    (∀ (entries : List ObsEntry) (links : List NavLink) (v : ObsEntry),
      (links.map (fun l => l.href)).Nodup → selectVisible entries = some v →
      ("#" ++ v.targetId) ∈ links.map (fun l => l.href) →
      countActive (observerStep entries links) = 1) := by
  constructor
  · intro steps links hnd h
    exact runObserver_count_le steps links hnd h
  · intro entries links v hnd hsel hmem
    unfold observerStep
    rw [hsel, countActive_markLinks]
    exact countP_href_eq_one _ links hnd hmem

/-- Claim C6 witness: both parts applied at concrete inputs with
distinct hrefs. -/
theorem at_most_one_active_distinct_hrefs_witness :
    countActive (runObserver [[⟨"a", true, 1⟩], [⟨"b", true, 1⟩]]
      [⟨"#a", false⟩, ⟨"#b", false⟩]) ≤ 1 ∧
    countActive (observerStep [⟨"a", true, 1⟩] [⟨"#a", false⟩, ⟨"#b", false⟩]) = 1 := by
  constructor
  · exact at_most_one_active_distinct_hrefs.1 [[⟨"a", true, 1⟩], [⟨"b", true, 1⟩]]
      [⟨"#a", false⟩, ⟨"#b", false⟩] (by decide) (by decide)
  · exact at_most_one_active_distinct_hrefs.2 [⟨"a", true, 1⟩] [⟨"#a", false⟩, ⟨"#b", false⟩]
      ⟨"a", true, 1⟩ (by decide) (by decide) (by decide)

/-- Claim C9: the escaped output contains no raw angle bracket and
no raw quote character of either kind, every ampersand in it begins
one of the five entity sequences, and a nullish or empty input
yields the empty string. -/
theorem escapeHtml_output_escaped :
    (∀ l : List Char,
      (escapeHtml l).all (fun c => !badChar c) = true ∧ okAmp (escapeHtml l) = true) ∧
    (∀ o : Option (List Char),
      (escapeHtmlJS o).all (fun c => !badChar c) = true ∧ okAmp (escapeHtmlJS o) = true) ∧
    escapeHtmlJS none = [] ∧ escapeHtmlJS (some []) = [] := by
  have hl : ∀ l : List Char,
      (escapeHtml l).all (fun c => !badChar c) = true ∧ okAmp (escapeHtml l) = true := by
    intro l
    rw [escapeHtml_eq_escAll]
    exact ⟨escAll_all_good l, okAmp_escAll l⟩
  refine ⟨hl, ?_, rfl, rfl⟩
  intro o
  cases o with
  | none => exact ⟨rfl, rfl⟩
  | some l =>
      by_cases h : l = []
      · simp [escapeHtmlJS, h, okAmp]
      · simp only [escapeHtmlJS, if_neg h]
        exact hl l

end Portfolio
